import Mathlib

/-!
# Verification of the secutils web-scraper extraction pipeline

Shallow embedding of the core of the `secutils-web-scraper` service:

* the TLSH locality-sensitive hash port (`src/utilities` TLSH class),
* the `tlsHash` wrapper and the `createResourceContentData` fingerprint
  fallback policy of the resources route,
* the in-page resource discovery / network-capture merge of
  `getResourcesList`,
* the output assembly with `data:`/`blob:` URL redaction,
* the route handler with its cache-key derivation and error taxonomy,
* the shared browser-session manager (`acquireBrowser`).

JavaScript strings are modelled as lists of UTF-16 code units
(`JSString := List Nat`), which is what `charCodeAt`/`.length` observe in
the source.  Machine arithmetic is modelled on `Nat` with explicit masks.
-/

set_option autoImplicit false

/-- A JavaScript string: the sequence of its UTF-16 code units
(`str.charCodeAt i` / `str.length` semantics). -/
abbrev JSString := List Nat

/-- Embeds an ASCII Lean string literal as a `JSString`. -/
def jstr (s : String) : JSString := s.toList.map Char.toNat

/-! ## TLSH (port of the Trend Micro locality sensitive hash, `Tlsh` class) -/

/-- `V_TABLE`: the fixed 256-entry Pearson substitution table of the TLSH
implementation. -/
def vTable : List Nat :=
  [1, 87, 49, 12, 176, 178, 102, 166, 121, 193, 6, 84, 249, 230, 44, 163, 14,
   197, 213, 181, 161, 85, 218, 80, 64, 239, 24, 226, 236, 142, 38, 200, 110,
   177, 104, 103, 141, 253, 255, 50, 77, 101, 81, 18, 45, 96, 31, 222, 25, 107,
   190, 70, 86, 237, 240, 34, 72, 242, 20, 214, 244, 227, 149, 235, 97, 234,
   57, 22, 60, 250, 82, 175, 208, 5, 127, 199, 111, 62, 135, 248, 174, 169,
   211, 58, 66, 154, 106, 195, 245, 171, 17, 187, 182, 179, 0, 243, 132, 56,
   148, 75, 128, 133, 158, 100, 130, 126, 91, 13, 153, 246, 216, 219, 119, 68,
   223, 78, 83, 88, 201, 99, 122, 11, 92, 32, 136, 114, 52, 10, 138, 30, 48,
   183, 156, 35, 61, 26, 143, 74, 251, 94, 129, 162, 63, 152, 170, 7, 115, 167,
   241, 206, 3, 150, 55, 59, 151, 220, 90, 53, 23, 131, 125, 173, 15, 238, 79,
   95, 89, 16, 105, 137, 225, 224, 217, 160, 37, 123, 118, 73, 2, 157, 46, 116,
   9, 145, 134, 228, 207, 212, 202, 215, 69, 229, 27, 188, 67, 124, 168, 252,
   42, 4, 29, 108, 21, 247, 19, 205, 39, 203, 233, 40, 186, 147, 198, 192, 155,
   33, 164, 191, 98, 204, 165, 180, 117, 76, 140, 36, 210, 172, 41, 54, 159, 8,
   185, 232, 113, 196, 231, 47, 146, 120, 51, 65, 28, 144, 254, 221, 93, 189,
   194, 139, 112, 43, 71, 109, 184, 209]

/-- `b_mapping(salt, i, j, k)`: four chained substitution-table lookups. -/
def bMapping (salt i j k : Nat) : Nat :=
  let h0 := vTable.getD (0 ^^^ salt) 0
  let h1 := vTable.getD (h0 ^^^ i) 0
  let h2 := vTable.getD (h1 ^^^ j) 0
  vTable.getD (h2 ^^^ k) 0

/-- Running state of the TLSH `update` loop: the one-byte checksum and the
256-bucket histogram `a_bucket` (as a total function on bucket indices). -/
structure TlshCore where
  checksum : Nat
  buckets : Nat → Nat

/-- `a_bucket[r]++`. -/
def bumpBucket (f : Nat → Nat) (r : Nat) : Nat → Nat :=
  fun x => if x = r then f x + 1 else f x

/-- One iteration of the `update` sliding-window loop once at least five bytes
have been fed: `a` is the current byte (`slide_window[j]`) and `b c d e` are
the previous four bytes (`slide_window[j_1] .. slide_window[j_4]`).  Updates
the checksum and increments the six histogram buckets selected by the six
`b_mapping` salts of the source. -/
def stepWindow (st : TlshCore) (a b c d e : Nat) : TlshCore :=
  let cs := bMapping 0 a b st.checksum
  let bk := st.buckets
  let bk := bumpBucket bk (bMapping 2 a b c)
  let bk := bumpBucket bk (bMapping 3 a b d)
  let bk := bumpBucket bk (bMapping 5 a c d)
  let bk := bumpBucket bk (bMapping 7 a c e)
  let bk := bumpBucket bk (bMapping 11 a b e)
  let bk := bumpBucket bk (bMapping 13 a d e)
  { checksum := cs, buckets := bk }

/-- The `update` loop over the remaining bytes, carrying the previous four
bytes `(h1, h2, h3, h4)` of the circular `slide_window` (most recent first).
This is the direct-indexing rendering of the source's circular buffer: at
input position `i ≥ 4` the window holds `data[i], data[i-1], …, data[i-4]`. -/
def updateCore : Nat × Nat × Nat × Nat → List Nat → TlshCore → TlshCore
  | _, [], st => st
  | (h1, h2, h3, h4), a :: rest, st =>
      updateCore (a, h1, h2, h3) rest (stepWindow st a h1 h2 h3 h4)

/-- Initial `Tlsh` state: zero checksum, all-zero histogram. -/
def initCore : TlshCore := ⟨0, fun _ => 0⟩

/-- The histogram/checksum state after the single `update(str)` call made by
`finale`: the first four bytes only seed the sliding window (`fed_len >= 4`
guard); every later byte runs `stepWindow`. -/
def tlshUpdate (data : List Nat) : TlshCore :=
  match data with
  | c0 :: c1 :: c2 :: c3 :: rest => updateCore (c3, c2, c1, c0) rest initCore
  | _ => initCore

/-- Fixed-point scale (10^36) for the natural-logarithm computation that
models `Math.log`. -/
def lnScale : Nat := 10 ^ 36

/-- `floor(ln 2 · 10^36)` (ln 2 = 0.693147180559945309417232121458176568075…). -/
def ln2Scaled : Nat := 693147180559945309417232121458176568

/-- Scaled truncation of `atanh (p/q) = Σ (p/q)^(2j+1) / (2j+1)`: the first 41
terms, each floored at scale `lnScale`.  For `p/q ≤ 1/3` (the only arguments
`lnScaled` passes) the truncation error is below `(1/3)^83`, far under one
scale unit. -/
def atanhScaled (p q : Nat) : Nat :=
  (List.range 41).foldl
    (fun acc j => acc + lnScale * p ^ (2 * j + 1) / ((2 * j + 1) * q ^ (2 * j + 1)))
    0

/-- `floor (log2 n)`, by structural recursion on a fuel bound (`fuel ≥ n`
suffices: the value halves each step). -/
def log2Fuel : Nat → Nat → Nat
  | 0, _ => 0
  | fuel + 1, n => if n ≤ 1 then 0 else log2Fuel fuel (n / 2) + 1

/-- `Math.log n` at scale `lnScale`: writing `n = 2^k · m` with `m ∈ [1, 2)`,
`ln n = k·ln 2 + 2·atanh ((n − 2^k) / (n + 2^k))`, where the atanh argument
lies in `[0, 1/3)`. -/
def lnScaled (n : Nat) : Nat :=
  if n ≤ 1 then 0
  else
    let k := log2Fuel n n
    k * ln2Scaled + 2 * atanhScaled (n - 2 ^ k) (n + 2 ^ k)

/-- `l_capturing(len)`: the logarithmic length bucket, clamped to a byte with
`& 0xff`.  The source computes `Math.floor(Math.log(len) / LOG)` with the
decimal constants `LOG_1_5 = 0.4054651`, `LOG_1_3 = 0.26236426`,
`LOG_1_1 = 0.09531018` and, in the two upper branches, subtracts the offsets
`8.72777` and `62.5472` before flooring.  Modelled by exact fixed-point
arithmetic over those same decimal constants (`lnScaled` standing in for the
double-precision `Math.log`): e.g. for the middle branch,
`floor(ln len / (26236426/10^8) − 872777/10^5)
  = floor((10^13·ln len·S − 872777·26236426·S) / (26236426·10^5·S))`. -/
def lCapturing (len : Nat) : Nat :=
  (if len ≤ 656 then
    10 ^ 7 * lnScaled len / (4054651 * lnScale)
   else if len ≤ 3199 then
    (10 ^ 13 * lnScaled len - 872777 * 26236426 * lnScale) /
      (26236426 * 10 ^ 5 * lnScale)
   else
    (10 ^ 12 * lnScaled len - 625472 * 9531018 * lnScale) /
      (9531018 * 10 ^ 4 * lnScale)) % 256

/-- `swap_byte`: exchanges the two nibbles of a byte. -/
def swapByte (i : Nat) : Nat :=
  (((i &&& 0xf0) >>> 4) &&& 0x0f) ||| (((i &&& 0x0f) <<< 4) &&& 0xf0)

/-- Uppercase hex digit as a UTF-16 code unit (`toString(16).toUpperCase()`). -/
def hexDigitU (n : Nat) : Nat := if n < 10 then 48 + n else 55 + n

/-- `to_hex` of one byte: two uppercase hex digits with a leading `'0'` for
values below 16. -/
def toHex2 (b : Nat) : JSString := [hexDigitU (b / 16 % 16), hexDigitU (b % 16)]

/-- The three quartile values `q1 ≤ q2 ≤ q3` of the effective 128 buckets. -/
structure Quartiles where
  q1 : Nat
  q2 : Nat
  q3 : Nat

/-- `find_quartile`: the source selects the 32nd, 64th and 96th smallest
entries of `a_bucket[0..127]` with a quickselect over `bucket_copy`;
quickselect computes exactly the order statistics of the array, modelled here
by indexing into the ascending sort. -/
def findQuartiles (bk : Nat → Nat) : Quartiles :=
  let sorted := ((List.range 128).map bk).insertionSort (· ≤ ·)
  ⟨sorted.getD 31 0, sorted.getD 63 0, sorted.getD 95 0⟩

/-- The `nonzero` counter of `finale`: how many of the first 128 buckets
(`a_bucket[4*i+j]`, `i < 32`, `j < 4`) are non-zero. -/
def nonzeroBuckets (bk : Nat → Nat) : Nat :=
  ((List.range 128).filter (fun i => !(bk i == 0))).length

/-- One byte of the 32-byte body code: the 2-bit quartile quantisation of
buckets `4*i .. 4*i+3`. -/
def tmpCodeByte (bk : Nat → Nat) (q : Quartiles) (i : Nat) : Nat :=
  (List.range 4).foldl
    (fun h j =>
      let k := bk (4 * i + j)
      if q.q3 < k then h + (3 <<< (j * 2))
      else if q.q2 < k then h + (2 <<< (j * 2))
      else if q.q1 < k then h + (1 <<< (j * 2))
      else h)
    0

/-- The full 32-byte body code `tmp_code`. -/
def tmpCode (bk : Nat → Nat) (q : Quartiles) : List Nat :=
  (List.range 32).map (tmpCodeByte bk q)

/-- The `Q` metadata byte: `setQLo`/`setQHi` with the quartile ratios.  The
source computes `(q1 * 100) / q3 % 16` on doubles and masks with `& 0x0f`,
which for the non-negative values involved is floor division followed by
`% 16`. -/
def qByte (q : Quartiles) : Nat :=
  let lo := (0 &&& 0xf0) ||| ((q.q1 * 100 / q.q3 % 16) &&& 0x0f)
  (lo &&& 0x0f) ||| (((q.q2 * 100 / q.q3 % 16) &&& 0x0f) <<< 4)

/-- The distinguishable failures of the TLSH computation: a UTF-16 code unit
above 255 in `update`, fewer than `MIN_DATA_LENGTH = 50` bytes, or at most
`64` non-zero effective buckets in `finale`. -/
inductive TlshErr where
  | charTooLarge (c : Nat)
  | lengthTooSmall (len : Nat)
  | notEnoughVariation (nonzero : Nat)
  deriving DecidableEq

/-- The metadata and body of a successful TLSH digest. -/
structure TlshDigest where
  checksum : Nat
  lvalue : Nat
  qvalue : Nat
  code : List Nat
  deriving DecidableEq

/-- `finale(str)`: runs `update` (which throws on any code unit above 255),
requires at least 50 bytes, computes the quartiles, requires more than half of
the 128 effective buckets to be non-zero, and otherwise produces the digest
components. -/
def tlshFinale (data : List Nat) : Except TlshErr TlshDigest :=
  match data.find? (fun c => Nat.blt 255 c) with
  | some c => .error (.charTooLarge c)
  | none =>
    if data.length < 50 then .error (.lengthTooSmall data.length)
    else
      let core := tlshUpdate data
      let q := findQuartiles core.buckets
      let nonzero := nonzeroBuckets core.buckets
      if nonzero ≤ 64 then .error (.notEnoughVariation nonzero)
      else
        .ok { checksum := core.checksum, lvalue := lCapturing data.length,
              qvalue := qByte q, code := tmpCode core.buckets q }

/-- `hash()`: nibble-swap each metadata byte, reverse the body code, and
hex-encode everything uppercase. -/
def digestString (d : TlshDigest) : JSString :=
  toHex2 (swapByte d.checksum) ++ toHex2 (swapByte d.lvalue) ++
    toHex2 (swapByte d.qvalue) ++ (d.code.reverse.map toHex2).flatten

/-- `tlsHash(text)` (`src/tls_hash.ts`): run `finale` on a fresh hasher and
prepend the fixed `"T1"` version prefix to the hex code. -/
def tlsHash (text : JSString) : Except TlshErr JSString :=
  (tlshFinale text).map (fun d => jstr "T1" ++ digestString d)

/-! ## UTF-8 encoding and SHA-1 (`node:crypto` `createHash('sha1')` applied
to a JS string hashes its UTF-8 encoding; lone surrogates become U+FFFD) -/

/-- UTF-8 encoding of a UTF-16 code-unit sequence, as Node's `'utf8'`
conversion performs it: surrogate pairs become one 4-byte sequence and
unpaired surrogates are replaced by U+FFFD (`EF BF BD`). -/
def utf8Encode : List Nat → List Nat
  | [] => []
  | c :: rest =>
    if c < 0x80 then c :: utf8Encode rest
    else if c < 0x800 then
      (0xc0 ||| (c >>> 6)) :: (0x80 ||| (c &&& 0x3f)) :: utf8Encode rest
    else if 0xd800 ≤ c ∧ c ≤ 0xdbff then
      match rest with
      | c2 :: rest2 =>
        if 0xdc00 ≤ c2 ∧ c2 ≤ 0xdfff then
          let cp := 0x10000 + ((c - 0xd800) <<< 10) + (c2 - 0xdc00)
          (0xf0 ||| (cp >>> 18)) :: (0x80 ||| ((cp >>> 12) &&& 0x3f)) ::
            (0x80 ||| ((cp >>> 6) &&& 0x3f)) :: (0x80 ||| (cp &&& 0x3f)) ::
            utf8Encode rest2
        else 0xef :: 0xbf :: 0xbd :: utf8Encode (c2 :: rest2)
      | [] => [0xef, 0xbf, 0xbd]
    else if 0xdc00 ≤ c ∧ c ≤ 0xdfff then 0xef :: 0xbf :: 0xbd :: utf8Encode rest
    else
      (0xe0 ||| (c >>> 12)) :: (0x80 ||| ((c >>> 6) &&& 0x3f)) ::
        (0x80 ||| (c &&& 0x3f)) :: utf8Encode rest

/-- 32-bit left rotation. -/
def rotl32 (n b : Nat) : Nat :=
  (((b <<< n) ||| (b >>> (32 - n)))) % 4294967296

/-- SHA-1 message padding: `0x80`, zeros to 56 mod 64, then the 64-bit
big-endian bit length. -/
def sha1Pad (msg : List Nat) : List Nat :=
  let len := msg.length
  let k := (119 - len % 64) % 64
  let bits := len * 8
  msg ++ 0x80 :: List.replicate k 0 ++
    [bits >>> 56 &&& 0xff, bits >>> 48 &&& 0xff, bits >>> 40 &&& 0xff,
     bits >>> 32 &&& 0xff, bits >>> 24 &&& 0xff, bits >>> 16 &&& 0xff,
     bits >>> 8 &&& 0xff, bits &&& 0xff]

/-- Split a byte list into big-endian 32-bit words (16 per block). -/
def bytesToWords : List Nat → List Nat
  | b0 :: b1 :: b2 :: b3 :: rest =>
      ((b0 <<< 24) ||| (b1 <<< 16) ||| (b2 <<< 8) ||| b3) :: bytesToWords rest
  | _ => []

/-- Extend 16 schedule words to 80 (`w[i] = rotl1 (w[i-3]^w[i-8]^w[i-14]^w[i-16])`). -/
def sha1Extend (w : List Nat) (i : Nat) : List Nat :=
  match i with
  | 0 => w
  | n + 1 =>
    let w := sha1Extend w n
    let t := (w.getD (w.length - 3) 0) ^^^ (w.getD (w.length - 8) 0) ^^^
      (w.getD (w.length - 14) 0) ^^^ (w.getD (w.length - 16) 0)
    w ++ [rotl32 1 t]

/-- One SHA-1 round. -/
def sha1Round (state : Nat × Nat × Nat × Nat × Nat) (i w : Nat) :
    Nat × Nat × Nat × Nat × Nat :=
  let (a, b, c, d, e) := state
  let f :=
    if i < 20 then (b &&& c) ||| ((0xffffffff ^^^ b) &&& d)
    else if i < 40 then b ^^^ c ^^^ d
    else if i < 60 then (b &&& c) ||| (b &&& d) ||| (c &&& d)
    else b ^^^ c ^^^ d
  let k :=
    if i < 20 then 0x5a827999
    else if i < 40 then 0x6ed9eba1
    else if i < 60 then 0x8f1bbcdc
    else 0xca62c1d6
  let temp := (rotl32 5 a + f + e + k + w) % 4294967296
  (temp, a, rotl32 30 b, c, d)

/-- Process the padded message 64-byte block by block. -/
def sha1Blocks : List Nat → Nat × Nat × Nat × Nat × Nat →
    Nat × Nat × Nat × Nat × Nat
  | [], h => h
  | b :: bytes, h =>
    let block := (b :: bytes).take 64
    let rest := (b :: bytes).drop 64
    let w := sha1Extend (bytesToWords block) 64
    let (h0, h1, h2, h3, h4) := h
    let (a, b, c, d, e) :=
      (List.range 80).foldl (fun st i => sha1Round st i (w.getD i 0))
        (h0, h1, h2, h3, h4)
    sha1Blocks rest
      ((h0 + a) % 4294967296, (h1 + b) % 4294967296, (h2 + c) % 4294967296,
       (h3 + d) % 4294967296, (h4 + e) % 4294967296)
  termination_by bytes _ => bytes.length
  decreasing_by
    simp only [List.length_drop, List.length_cons]
    omega

/-- Lowercase hex digit code unit (`digest('hex')` is lowercase). -/
def hexDigitL (n : Nat) : Nat := if n < 10 then 48 + n else 87 + n

/-- A 32-bit word as eight lowercase hex code units. -/
def wordToHex (w : Nat) : JSString :=
  (List.range 8).map (fun i => hexDigitL (w >>> ((7 - i) * 4) &&& 0xf))

/-- `createHash('sha1').update(bytes).digest('hex')`. -/
def sha1Hex (bytes : List Nat) : JSString :=
  let (h0, h1, h2, h3, h4) :=
    sha1Blocks (sha1Pad bytes) (0x67452301, 0xefcdab89, 0x98badcfe, 0x10325476, 0xc3d2e1f0)
  wordToHex h0 ++ wordToHex h1 ++ wordToHex h2 ++ wordToHex h3 ++ wordToHex h4

/-! ## Fingerprint fallback policy (`createResourceContentData`) -/

/-- `WebPageResourceContentData`: exactly one of the three algorithms applies
per resource. -/
inductive ContentData where
  | tlsh (value : JSString)
  | sha1 (value : JSString)
  | raw (value : JSString)
  deriving DecidableEq

/-- `createResourceContentData(log, data)`: try the TLSH hash; on any failure
fall back silently to the SHA-1 hex digest when the string is longer than 256
code units, and to the raw content itself otherwise. -/
def createResourceContentData (data : JSString) : ContentData :=
  match tlsHash data with
  | .ok value => .tlsh value
  | .error _ =>
    if 256 < data.length then .sha1 (sha1Hex (utf8Encode data))
    else .raw data

/-! ## Captured resources and the URL merge (`getResourcesList`) -/

/-- Resource kind, as reported by `request.resourceType()` / the DOM walk. -/
inductive ResType where
  | script
  | stylesheet
  deriving DecidableEq

/-- `WebPageResourceWithRawData`: a resource discovered by the in-page walk
(or a merged/leftover network resource), before fingerprinting. -/
structure RawResource where
  url : Option JSString
  data : JSString
  type : ResType
  deriving DecidableEq

/-- An entry of the `externalResources` array filled by the `page.on('response')`
listener: final URL, UTF-8 decoded body, resource kind, and the `processed`
consumption mark (always pushed as `false`). -/
structure ExternalResource where
  url : JSString
  data : JSString
  type : ResType
  processed : Bool
  deriving DecidableEq

/-- The JS `Map` used for `externalResourcesMap`: an association list with at
most one live entry per key, `set` updating in place. -/
abbrev ResMap := List (JSString × ExternalResource)

/-- `Map.prototype.get`. -/
def mapGet (m : ResMap) (k : JSString) : Option ExternalResource :=
  (m.find? (fun p => p.1 == k)).map (·.2)

/-- `Map.prototype.set`: replaces the value at an existing key in place,
otherwise appends (JS `Map` keeps first-insertion order). -/
def mapSet : ResMap → JSString → ExternalResource → ResMap
  | [], k, v => [(k, v)]
  | p :: rest, k, v => if p.1 = k then (k, v) :: rest else p :: mapSet rest k v

/-- `new Map(externalResources.map((r) => [r.url, r]))`: later entries with the
same URL overwrite earlier ones. -/
def buildResourcesMap (externals : List ExternalResource) : ResMap :=
  externals.foldl (fun m e => mapSet m e.url e) []

/-- `Map.prototype.values` in iteration order. -/
def mapValues (m : ResMap) : List ExternalResource := m.map (·.2)

/-- One iteration of the `combinedResources = resources.map(...)` body: an
in-page resource whose URL has a captured network counterpart gets the network
body appended to its own data, and the captured copy is marked `processed`;
everything else passes through unchanged. -/
def combineStepCore (m : ResMap) (resAcc : List RawResource) (r : RawResource) :
    ResMap × List RawResource :=
  match r.url with
  | none => (m, resAcc ++ [r])
  | some u =>
    match mapGet m u with
    | none => (m, resAcc ++ [r])
    | some ext =>
      let m2 := if ext.processed then m
                else mapSet m u { ext with processed := true }
      (m2, resAcc ++ [{ r with data := r.data ++ ext.data }])

/-- The same step, uncurried over the fold state. -/
def combineStep (acc : ResMap × List RawResource) (r : RawResource) :
    ResMap × List RawResource :=
  combineStepCore acc.1 acc.2 r

/-- The trailing `for … of externalResourcesMap.values()` loop: captured
resources never matched by an in-page element are emitted as leftovers. -/
def leftoverResources (m : ResMap) : List RawResource :=
  (mapValues m).filterMap
    (fun e => if e.processed then none else some ⟨some e.url, e.data, e.type⟩)

/-- The full merge of in-page discovered resources with network captures. -/
def combineResources (resources : List RawResource)
    (externals : List ExternalResource) : List RawResource :=
  let st := resources.foldl combineStep (buildResourcesMap externals, [])
  st.2 ++ leftoverResources st.1

/-! ## The in-page `<script>` element walk and `parseURL` -/

/-- A JS whitespace code unit, for `String.prototype.trim`. -/
def jsWhitespace (c : Nat) : Bool :=
  c == 9 || c == 10 || c == 11 || c == 12 || c == 13 || c == 32 ||
    c == 160 || c == 0xfeff || c == 0x2028 || c == 0x2029

/-- `str.trim()`. -/
def jsTrim (s : JSString) : JSString :=
  ((s.dropWhile jsWhitespace).reverse.dropWhile jsWhitespace).reverse

/-- `url.split(',')[0] + ','`: the media-type part of a `data:` URL with the
payload after the first comma removed. -/
def redactedDataUrl (u : JSString) : JSString :=
  u.takeWhile (fun c => !(c == 44)) ++ [44]

/-- The in-page `parseURL`: a `data:` URL is redacted to its pre-comma part
while its whole text becomes the resource data; a `blob:` URL is replaced by
the bare `blob:` marker and its fetched payload (supplied here as
`blobPayload`, the result of the in-page `fetch`) becomes the data; any other
URL passes through with empty data. -/
def parseURL (u : JSString) (blobPayload : JSString) : JSString × JSString :=
  if (jstr "data:").isPrefixOf u then (redactedDataUrl u, u)
  else if (jstr "blob:").isPrefixOf u then (jstr "blob:", blobPayload)
  else (u, [])

/-- The `<script>` element loop body of the in-page evaluate: `src` is
`el.src`, `onloadStr` is `el.onload?.toString() ?? ''`, `innerHTML` is
`el.innerHTML`, `blobPayload` feeds `parseURL`.  The script content is the
concatenation of the trimmed onload handler, the trimmed inner content and
the `parseURL` data (the `Blob` text round-trip is the identity); elements
with neither URL nor data are dropped (`isResourceValid`). -/
def scriptElementResource (src onloadStr innerHTML blobPayload : JSString) :
    Option RawResource :=
  let parsed := parseURL (jsTrim src) blobPayload
  let base : RawResource :=
    if parsed.1 ≠ [] then ⟨some parsed.1, parsed.2, .script⟩
    else ⟨none, parsed.2, .script⟩
  let scriptContent := jsTrim onloadStr ++ jsTrim innerHTML ++ parsed.2
  let r := if scriptContent ≠ [] then { base with data := scriptContent } else base
  if r.url.isSome || !(r.data == []) then some r else none

/-! ## Output assembly (fingerprinting loop of `getResourcesList`) -/

/-- `WebPageResourceContent`: the fingerprint data plus the reported size
(`resourceWithRawData.data.length`, a UTF-16 code-unit count). -/
structure ResourceContent where
  data : ContentData
  size : Nat
  deriving DecidableEq

/-- `WebPageResource`: an output entry; absent fields are `none`. -/
structure OutputResource where
  url : Option JSString
  content : Option ResourceContent
  deriving DecidableEq

/-- `Object.values(contentData)[0]`: the single fingerprint value. -/
def contentValue : ContentData → JSString
  | .tlsh v => v
  | .sha1 v => v
  | .raw v => v

/-- JS truthiness of an optional string: present and non-empty. -/
def truthy : Option JSString → Bool
  | none => false
  | some s => !(s == [])

/-- `url.startsWith('data:') || url.startsWith('blob:')`. -/
def startsDataOrBlob (u : JSString) : Bool :=
  (jstr "data:").isPrefixOf u || (jstr "blob:").isPrefixOf u

/-- The body of the final assembly loop over extracted resources: non-empty
data is fingerprinted with its code-unit length as size, `data:`/`blob:` URLs
are rewritten to `url[fingerprint]`, and an entry is emitted iff it has a
truthy URL or a content object. -/
def assembleEntry (r : RawResource) : Option (ResType × OutputResource) :=
  let content : Option ResourceContent :=
    if !(r.data == []) then some ⟨createResourceContentData r.data, r.data.length⟩
    else none
  let url : Option JSString :=
    if truthy r.url && startsDataOrBlob (r.url.getD []) then
      some ((r.url.getD []) ++ jstr "[" ++
        (match content with | some c => contentValue c.data | none => []) ++ jstr "]")
    else r.url
  if truthy url || content.isSome then
    some (r.type,
      if truthy url && content.isSome then ⟨url, content⟩
      else if truthy url then ⟨url, none⟩
      else ⟨none, content⟩)
  else none

/-- The assembly loop: scripts and styles are collected separately. -/
def assembleOutput (rs : List RawResource) :
    List OutputResource × List OutputResource :=
  rs.foldl
    (fun acc r =>
      match assembleEntry r with
      | none => acc
      | some (.script, e) => (acc.1 ++ [e], acc.2)
      | some (.stylesheet, e) => (acc.1, acc.2 ++ [e]))
    ([], [])

/-! ## The user `resourceFilterMap` script and the route (`registerWebPageResourcesListRoutes`) -/

/-- Behaviour of one invocation of the user-supplied `resourceFilterMap`
function on a resource: return a falsy value (skip), return a mapped resource
(the source validates its shape; a well-typed `RawResource` passes those
checks), or throw with a message. -/
inductive FilterOutcome where
  | skip
  | keep (r : RawResource)
  | err (msg : JSString)

/-- The message of the error rethrown by the in-page catch block around the
user filter. -/
def filterMsg (m : JSString) : JSString :=
  jstr "Resources filter script has thrown an exception: " ++ m ++ jstr "."

/-- `combinedResources.flatMap(...)` under the in-page try/catch: the filter
runs per resource in order; the first exception aborts the evaluation with
the wrapped message. -/
def applyFilterMap (f : RawResource → FilterOutcome) :
    List RawResource → Except JSString (List RawResource)
  | [] => .ok []
  | r :: rest =>
    match f r with
    | .skip => applyFilterMap f rest
    | .keep r2 => (applyFilterMap f rest).map (r2 :: ·)
    | .err m => .error (filterMsg m)

/-- `InputBodyParamsType` of the resources route. -/
structure RequestBody where
  url : JSString
  timeout : Option Nat
  delay : Option Nat
  waitSelector : Option JSString
  resourceFilterMap : Option JSString
  headers : List (JSString × JSString)

/-- The externally observable behaviour of the browser for one request: how
navigation and the selector wait end, what the DOM walk finds, what the
network listener captured by the merge point, and what the installed user
filter does (when one was installed). -/
structure PageBehavior where
  navError : Option JSString
  selectorError : Option JSString
  domResources : List RawResource
  externals : List ExternalResource
  filterMap : Option (RawResource → FilterOutcome)

/-- `ApiResult`: the success/client-error outcome type of the pipeline. -/
inductive ApiResult (α : Type) where
  | success (data : α)
  | clientError (error : JSString)

/-- `OutputBodyType` minus the wall-clock `timestamp` field (the source reads
`Date.now()`; real time is outside the embedding and no claim concerns it). -/
structure OutputBody where
  scripts : List OutputResource
  styles : List OutputResource
  deriving DecidableEq

/-- `Failed to load page "url": err`. -/
def navErrorMsg (url e : JSString) : JSString :=
  jstr "Failed to load page \"" ++ url ++ jstr "\": " ++ e

/-- `Failed to retrieve selector "sel" for page "url": err`. -/
def selErrorMsg (sel url e : JSString) : JSString :=
  jstr "Failed to retrieve selector \"" ++ sel ++ jstr "\" for page \"" ++
    url ++ jstr "\": " ++ e

/-- The merge + filter + assembly stage of `getResourcesList` (the
`page.evaluate` call and the loop after it). -/
def evaluateStage (pb : PageBehavior) : ApiResult OutputBody :=
  let combined := combineResources pb.domResources pb.externals
  match pb.filterMap with
  | none =>
    let out := assembleOutput combined
    .success ⟨out.1, out.2⟩
  | some f =>
    match applyFilterMap f combined with
    | .error msg => .clientError msg
    | .ok rs =>
      let out := assembleOutput rs
      .success ⟨out.1, out.2⟩

/-- `getResourcesList`: navigation failure and selector-wait failure return
client errors with descriptive messages; otherwise the in-page evaluation
runs (an exception there, e.g. from the user filter, is also a client error
carrying the thrown message). -/
def getResourcesList (req : RequestBody) (pb : PageBehavior) : ApiResult OutputBody :=
  match pb.navError with
  | some e => .clientError (navErrorMsg req.url e)
  | none =>
    match req.waitSelector with
    | some sel =>
      match pb.selectorError with
      | some e => .clientError (selErrorMsg sel req.url e)
      | none => evaluateStage pb
    | none => evaluateStage pb

/-! ## Cache and route handler -/

/-- The NodeCache collaborator, modelled as an association list. -/
abbrev Cache := List (JSString × OutputBody)

/-- `cache.has(key)`. -/
def cacheHas (c : Cache) (k : JSString) : Bool :=
  (c.find? (fun p => p.1 == k)).isSome

/-- `cache.get(key)`. -/
def cacheGet (c : Cache) (k : JSString) : Option OutputBody :=
  (c.find? (fun p => p.1 == k)).map (·.2)

/-- `cache.set(key, value)`: overwrite in place or append. -/
def cacheSet : Cache → JSString → OutputBody → Cache
  | [], k, v => [(k, v)]
  | p :: rest, k, v => if p.1 = k then (k, v) :: rest else p :: cacheSet rest k v

/-- `n.toString()` for the delay number. -/
def natToJS (n : Nat) : JSString := jstr (toString n)

/-- The cache key of the resources route:
`url + ':' + (waitSelector ?? '-') + ':' + (delay?.toString() ?? '-')`. -/
def cacheKey (r : RequestBody) : JSString :=
  r.url ++ jstr ":" ++ r.waitSelector.getD (jstr "-") ++ jstr ":" ++
    (r.delay.map natToJS).getD (jstr "-")

/-- How one execution of the pipeline ended, as the route handler sees it:
either `getResourcesList` returned (success or client error), or an exception
escaped to the handler's catch (infrastructure failure). -/
inductive PipelineRun where
  | ran (result : ApiResult OutputBody)
  | threw (err : JSString)

/-- A response body: the cached payload on success, `{ message }` on error. -/
inductive ResponseBody where
  | payload (d : Option OutputBody)
  | message (m : JSString)

/-- The generic 500 message of the handler's catch block. -/
def serverErrorMsg (url : JSString) : JSString :=
  jstr "Cannot retrieve resources for page \"" ++ url ++
    jstr "\". Check the server logs for more details."

/-- The resources route handler: on a cache hit the cached value is returned;
on a miss a client error becomes a 400 with the error message and writes
nothing, an escaped exception becomes a 500 with a generic message and writes
nothing, and a success is written to the cache and served from it. -/
def handleResourcesRequest (cache : Cache) (req : RequestBody)
    (run : PipelineRun) : (Nat × ResponseBody) × Cache :=
  let key := cacheKey req
  if cacheHas cache key then ((200, .payload (cacheGet cache key)), cache)
  else
    match run with
    | .threw _ => ((500, .message (serverErrorMsg req.url)), cache)
    | .ran (.clientError m) => ((400, .message m), cache)
    | .ran (.success d) =>
      let c2 := cacheSet cache key d
      ((200, .payload (cacheGet c2 key)), c2)

/-! ## Browser session manager (`acquireBrowser` in `src/index.ts`)

JavaScript's run-to-completion scheduling makes the synchronous body of
`acquireBrowser` atomic: the interleaving of concurrent callers is a sequence
of whole `acquire` steps followed by the settlement of the pending launch
promise.  `results` records, per caller, which launch attempt's outcome the
caller's promise resolved to (`Except.error n` = attempt `n` failed). -/

/-- The module-level mutable state around `acquireBrowser`: the single-flight
`browserIsLaunching` promise (with the callers awaiting it), the `browser`
handle (`some b` with `b` = `isConnected()`), the idle shutdown timer, plus
instrumentation: how many times `runBrowser` was started and what each caller
received. -/
structure BrowserManager where
  launching : Bool
  waiters : List Nat
  browser : Option Bool
  timerArmed : Bool
  launches : Nat
  results : List (Nat × Except Nat Nat)

/-- The state at process start: no browser, no launch in flight. -/
def initialManager : BrowserManager :=
  ⟨false, [], none, false, 0, []⟩

/-- One synchronous run of `acquireBrowser()` by caller `c`: if a launch is in
flight the caller awaits the same promise; otherwise the idle timer is
cleared, a connected browser is returned immediately (re-arming the timer),
and in every other case (no browser, or a disconnected one that is first
stopped) a single fresh launch is started with this caller awaiting it. -/
def acquire (st : BrowserManager) (c : Nat) : BrowserManager :=
  if st.launching then { st with waiters := st.waiters ++ [c] }
  else
    let st := { st with timerArmed := false }
    match st.browser with
    | some true =>
      { st with timerArmed := true, results := st.results ++ [(c, .ok st.launches)] }
    | _ =>
      { st with launching := true, launches := st.launches + 1, waiters := [c] }

/-- Settlement of the pending launch promise: on success every waiter receives
the new handle, the handle is stored and the idle timer armed; on failure
every waiter receives the error of this attempt and `browser` is reset to
`undefined`; either way the `finally` clears `browserIsLaunching`. -/
def completeLaunch (st : BrowserManager) (ok : Bool) : BrowserManager :=
  if ok then
    { st with launching := false
              waiters := []
              browser := some true
              timerArmed := true
              results := st.results ++ st.waiters.map (fun c => (c, .ok st.launches)) }
  else
    { st with launching := false
              waiters := []
              browser := none
              results := st.results ++ st.waiters.map (fun c => (c, .error st.launches)) }

/-! ## Proof-support definitions and concrete inputs -/

/-- The six bucket indices a repeated-byte window increments: for input that
is a single repeated byte `b`, every `stepWindow` call touches exactly these
(at most six distinct) buckets. -/
def repBuckets (b : Nat) : List Nat :=
  [bMapping 2 b b b, bMapping 3 b b b, bMapping 5 b b b,
   bMapping 7 b b b, bMapping 11 b b b, bMapping 13 b b b]

/-- Structural invariant of the external-resources map maintained by
`buildResourcesMap` and `combineStep`: every value is stored under its own
URL and keys are not duplicated. -/
def goodMap (m : ResMap) : Prop :=
  (∀ p ∈ m, p.2.url = p.1) ∧ (m.map (fun p => p.1)).Nodup

/-- A 50-character input with enough variation for the TLSH hash to
succeed. -/
def wVaried : JSString := jstr "abcdefghijklmnopqrstuvwxyzABCDEFGHIJKLMNOPQRSTUVWX"

/-- The digest `tlshFinale` produces on `wVaried`. -/
def wDigest : TlshDigest :=
  ⟨10, 9, 32,
   [4, 88, 136, 4, 9, 80, 129, 66, 11, 168, 33, 81, 1, 74, 25, 87, 195, 181,
    45, 153, 149, 129, 118, 69, 82, 6, 14, 13, 73, 83, 168, 21]⟩

/-- The resource the in-page walk produces for `<script>alert(1)</script>`. -/
def alertResource : RawResource := ⟨none, jstr "alert(1)", .script⟩

/-- A small `data:` URL script source. -/
def dataUrlSource : JSString := jstr "data:text/javascript,alert(1)"

/-- What the in-page walk produces for an element with that `data:` URL:
`parseURL` truncates the URL at the comma and keeps the whole URL text as
the data. -/
def dataUrlResource : RawResource :=
  ⟨some (jstr "data:text/javascript,"), dataUrlSource, .script⟩

/-- The URL field the assembly loop emits for `dataUrlResource`: the
redacted placeholder followed by the resource's own (raw) fingerprint, which
is the full `data:` URL - payload included. -/
def dataUrlLeakedUrl : JSString :=
  jstr "data:text/javascript,[" ++ jstr "data:text/javascript," ++
    jstr "alert(1)" ++ jstr "]"

/-- A request with no user script. -/
def reqPlain : RequestBody := ⟨jstr "https://secutils.dev", none, none, none, none, []⟩

/-- The same request with a user `resourceFilterMap` script. -/
def reqScripted : RequestBody :=
  ⟨jstr "https://secutils.dev", none, none, none, some (jstr "return resource;"), []⟩

/-- A one-character resource whose UTF-16 length and UTF-8 byte length
differ (U+00E9). -/
def acuteResource : RawResource := ⟨none, [233], .script⟩

/-- A page whose navigation fails. -/
def navFailBehavior : PageBehavior :=
  ⟨some (jstr "net::ERR_NAME_NOT_RESOLVED"), none, [], [], none⟩

/-- A concrete external script URL. -/
def extUrl : JSString := jstr "https://cdn.example.com/lib.js"

/-- The network capture of that script. -/
def extScript : ExternalResource := ⟨extUrl, jstr "console.log(2)", .script, false⟩

/-- The in-page discovery of the same script (with inline content). -/
def inPageScript : RawResource := ⟨some extUrl, jstr "console.log(1)", .script⟩
/-! ## Theorems -/

theorem tlshFinale_ok_inv (data : List Nat) (d : TlshDigest)
    (h : tlshFinale data = .ok d) :
    data.find? (fun c => Nat.blt 255 c) = none ∧ 50 ≤ data.length ∧
      64 < nonzeroBuckets (tlshUpdate data).buckets := by
  unfold tlshFinale at h
  split at h
  · exact absurd h (by simp)
  · next hfind =>
    split at h
    · exact absurd h (by simp)
    · next hlen =>
      simp only [] at h
      split at h
      · exact absurd h (by simp)
      · next hnz => exact ⟨hfind, by omega, by omega⟩

theorem tlshFinale_isError_of_short (data : List Nat) (hlen : data.length < 50) :
    ∃ e, tlshFinale data = .error e := by
  unfold tlshFinale
  split
  · exact ⟨_, rfl⟩
  · rw [if_pos hlen]
    exact ⟨_, rfl⟩

theorem tlsHash_ok_inv (data : List Nat) (v : JSString)
    (h : tlsHash data = .ok v) :
    ∃ d, tlshFinale data = .ok d ∧ v = jstr "T1" ++ digestString d := by
  unfold tlsHash at h
  cases hf : tlshFinale data with
  | ok d => rw [hf] at h; simp [Except.map] at h; exact ⟨d, rfl, h.symm⟩
  | error e => rw [hf] at h; simp [Except.map] at h

theorem tlsHash_error_of_finale (data : List Nat) (e : TlshErr)
    (h : tlshFinale data = .error e) : tlsHash data = .error e := by
  unfold tlsHash
  rw [h]
  rfl

/-- C1: for every raw content string fingerprinted by the pipeline, a
successful TLSH computation (which requires at least 50 code units) yields
the `tlsh` algorithm with value `"T1"` followed by the TLSH hex code; a
failed TLSH computation yields the raw content itself when the length is at
most 256 and the SHA-1 hex digest when the length exceeds 256; content
shorter than 50 units is never fingerprinted with `tlsh`. -/
theorem fingerprint_policy (data : JSString) :
    (∀ d, tlshFinale data = .ok d →
        tlsHash data = .ok (jstr "T1" ++ digestString d) ∧
        createResourceContentData data = .tlsh (jstr "T1" ++ digestString d) ∧
        50 ≤ data.length) ∧
    (∀ e, tlsHash data = .error e → data.length ≤ 256 →
        createResourceContentData data = .raw data) ∧
    (∀ e, tlsHash data = .error e → 256 < data.length →
        createResourceContentData data = .sha1 (sha1Hex (utf8Encode data))) ∧
    (data.length < 50 → ∀ v, createResourceContentData data ≠ .tlsh v) := by
  refine ⟨?_, ?_, ?_, ?_⟩
  · intro d hd
    have hh : tlsHash data = .ok (jstr "T1" ++ digestString d) := by
      unfold tlsHash
      rw [hd]
      rfl
    refine ⟨hh, ?_, (tlshFinale_ok_inv data d hd).2.1⟩
    simp [createResourceContentData, hh]
  · intro e he hlen
    have h2 : ¬ 256 < data.length := by omega
    simp [createResourceContentData, he, h2]
  · intro e he hlen
    simp [createResourceContentData, he, hlen]
  · intro hshort v
    obtain ⟨e, he⟩ := tlshFinale_isError_of_short data hshort
    have he2 := tlsHash_error_of_finale data e he
    simp only [createResourceContentData, he2]
    split <;> simp

set_option maxRecDepth 40000 in
/-- C1 witness: on a concrete varied 50-character input the TLSH hash
succeeds and the fingerprint is the `tlsh` algorithm with the `"T1"`-prefixed
hex code. -/
theorem fingerprint_policy_witness :
    tlsHash wVaried = .ok (jstr "T1" ++ digestString wDigest) ∧
    createResourceContentData wVaried = .tlsh (jstr "T1" ++ digestString wDigest) ∧
    50 ≤ wVaried.length :=
  (fingerprint_policy wVaried).1 wDigest (by rfl)

/-- C10: content containing any UTF-16 code unit above 255 makes the TLSH
hasher throw before hashing (the `update` char check), so such content is
fingerprinted with the raw content itself when its length is at most 256 and
with the SHA-1 hex digest otherwise - never with `tlsh`. -/
theorem nonLatin1_policy (data : JSString) (c : Nat) (hc : c ∈ data)
    (hbig : 255 < c) :
    (∃ c2, 255 < c2 ∧ tlsHash data = .error (.charTooLarge c2)) ∧
    (data.length ≤ 256 → createResourceContentData data = .raw data) ∧
    (256 < data.length →
      createResourceContentData data = .sha1 (sha1Hex (utf8Encode data))) := by
  have hfind : ∃ c2, data.find? (fun c => Nat.blt 255 c) = some c2 ∧ 255 < c2 := by
    cases hf : data.find? (fun c => Nat.blt 255 c) with
    | none =>
      exfalso
      have := List.find?_eq_none.mp hf c hc
      simp [Nat.blt_eq] at this
      omega
    | some c2 =>
      refine ⟨c2, rfl, ?_⟩
      have := List.find?_some hf
      simpa [Nat.blt_eq] using this
  obtain ⟨c2, hf, hc2⟩ := hfind
  have herr : tlshFinale data = .error (.charTooLarge c2) := by
    unfold tlshFinale
    rw [hf]
  have herr2 := tlsHash_error_of_finale data _ herr
  refine ⟨⟨c2, hc2, herr2⟩, ?_, ?_⟩
  · intro hlen
    have h2 : ¬ 256 < data.length := by omega
    simp [createResourceContentData, herr2, h2]
  · intro hlen
    simp [createResourceContentData, herr2, hlen]

/-- C10 witness: the single CJK character U+4E2D is fingerprinted raw. -/
theorem nonLatin1_policy_witness :
    (∃ c2, 255 < c2 ∧ tlsHash [20013] = .error (.charTooLarge c2)) ∧
    createResourceContentData [20013] = .raw [20013] :=
  ⟨(nonLatin1_policy [20013] 20013 (by decide) (by decide)).1,
   (nonLatin1_policy [20013] 20013 (by decide) (by decide)).2.1 (by decide)⟩
/-- C4 counterexample: two requests that differ in the user-supplied script
(one of the request-shaping fields) derive the same cache key. -/
theorem cacheKey_counterexample :
    cacheKey reqScripted = cacheKey reqPlain ∧
    reqScripted.resourceFilterMap ≠ reqPlain.resourceFilterMap := by
  decide

/-- C4 (amended): the cache key is a pure function of the url, waitSelector
and delay fields only - requests identical in those three fields derive the
same key even when script, headers or timeout differ. -/
theorem cacheKey_amended (r1 r2 : RequestBody) (hu : r1.url = r2.url)
    (hw : r1.waitSelector = r2.waitSelector) (hd : r1.delay = r2.delay) :
    cacheKey r1 = cacheKey r2 := by
  simp [cacheKey, hu, hw, hd]

/-- C4 witness: the two concrete requests of the counterexample agree on
url, waitSelector and delay, hence share a key. -/
theorem cacheKey_amended_witness : cacheKey reqScripted = cacheKey reqPlain :=
  cacheKey_amended reqScripted reqPlain (by decide) (by decide) (by decide)

/-- C9 counterexample: a resource whose content is the single unit U+00E9 is
reported with size 1 (its UTF-16 length) although its raw content occupies 2
bytes. -/
theorem resource_size_counterexample :
    assembleOutput [acuteResource] = ([⟨none, some ⟨.raw [233], 1⟩⟩], []) ∧
    (utf8Encode [233]).length = 2 ∧ (1 : Nat) ≠ 2 := by
  decide

/-- C9 (amended): every output entry with non-empty raw content reports as
size the number of UTF-16 code units of that content (which coincides with
the byte count only for Latin-1/ASCII content); the inline `alert(1)` page
yields one script entry fingerprinted raw `"alert(1)"` with size 8. -/
theorem resource_size_policy :
    (∀ r : RawResource, r.data ≠ [] →
      ∃ e, assembleEntry r = some (r.type, e) ∧
        e.content = some ⟨createResourceContentData r.data, r.data.length⟩) ∧
    scriptElementResource (jstr "") (jstr "") (jstr "alert(1)") [] = some alertResource ∧
    assembleOutput [alertResource] =
      ([⟨none, some ⟨.raw (jstr "alert(1)"), 8⟩⟩], []) := by
  refine ⟨?_, by decide, by decide⟩
  intro r hd
  have hb : (r.data == []) = false := beq_eq_false_iff_ne.mpr hd
  simp only [assembleEntry, hb, Bool.not_false, if_true, Option.isSome_some,
    Bool.or_true, Bool.and_true]
  split <;> split <;> exact ⟨_, rfl, rfl⟩

/-- C9 witness: the amended size statement evaluated on the alert(1)
resource. -/
theorem resource_size_policy_witness :
    ∃ e, assembleEntry alertResource = some (alertResource.type, e) ∧
      e.content = some ⟨createResourceContentData alertResource.data,
        alertResource.data.length⟩ :=
  resource_size_policy.1 alertResource (by decide)

/-- C3 counterexample: a small `data:` URL script is emitted with a url field
that embeds the raw payload `alert(1)` inline (inside its raw-algorithm
fingerprint). -/
theorem dataUrl_payload_counterexample :
    scriptElementResource dataUrlSource (jstr "") (jstr "") [] = some dataUrlResource ∧
    assembleEntry dataUrlResource =
      some (.script, ⟨some dataUrlLeakedUrl, some ⟨.raw dataUrlSource, 29⟩⟩) ∧
    dataUrlLeakedUrl =
      jstr "data:text/javascript,[data:text/javascript," ++ jstr "alert(1)" ++ jstr "]" := by
  decide

/-- C3 (amended): a `data:`/`blob:` URL entry's url field is exactly the
redacted placeholder URL plus the resource's own fingerprint value in
brackets (`parseURL` truncates a `data:` URL at its first comma and replaces
a `blob:` URL by the bare `blob:` marker); the raw payload can therefore
still appear, but only inside a raw-algorithm fingerprint. -/
theorem dataUrl_redaction (r : RawResource) (u : JSString) (hu : r.url = some u)
    (hnz : u ≠ []) (hdb : startsDataOrBlob u = true) (hd : r.data ≠ []) :
    assembleEntry r = some (r.type,
      ⟨some (u ++ jstr "[" ++ contentValue (createResourceContentData r.data) ++ jstr "]"),
       some ⟨createResourceContentData r.data, r.data.length⟩⟩) ∧
    (∀ w b, (jstr "data:").isPrefixOf w = true →
      (parseURL w b).1 = redactedDataUrl w) ∧
    (∀ w b, (jstr "data:").isPrefixOf w = false →
      (jstr "blob:").isPrefixOf w = true → (parseURL w b).1 = jstr "blob:") := by
  refine ⟨?_, ?_, ?_⟩
  · have hb : (r.data == []) = false := beq_eq_false_iff_ne.mpr hd
    have htu : truthy r.url = true := by
      rw [hu]
      simpa [truthy] using hnz
    have hget : r.url.getD [] = u := by rw [hu]; rfl
    have hurl : (u ++ jstr "[" ++ contentValue (createResourceContentData r.data) ++ jstr "]") ≠ [] := by
      intro hcontra
      apply hnz
      have := List.append_eq_nil.mp (List.append_eq_nil.mp (List.append_eq_nil.mp hcontra).1).1
      exact this.1
    have htu2 : truthy (some (u ++ jstr "[" ++ contentValue (createResourceContentData r.data) ++ jstr "]")) = true := by
      simpa [truthy] using hurl
    simp only [assembleEntry, hb, Bool.not_false, if_true, htu, hdb, Bool.and_self,
      hget, Option.isSome_some, Bool.or_true, Bool.and_true, htu2]
  · intro w b h
    simp [parseURL, h]
  · intro w b h1 h2
    simp [parseURL, h1, h2]

/-- C3 witness: the redaction shape evaluated on the concrete `data:` URL
resource. -/
theorem dataUrl_redaction_witness :
    assembleEntry dataUrlResource = some (dataUrlResource.type,
      ⟨some (jstr "data:text/javascript," ++ jstr "[" ++
        contentValue (createResourceContentData dataUrlResource.data) ++ jstr "]"),
       some ⟨createResourceContentData dataUrlResource.data,
         dataUrlResource.data.length⟩⟩) :=
  (dataUrl_redaction dataUrlResource (jstr "data:text/javascript,") (by rfl)
    (by decide) (by decide) (by decide)).1
theorem applyFilterMap_error_form (f : RawResource → FilterOutcome) :
    ∀ (rs : List RawResource) (em : JSString), applyFilterMap f rs = .error em →
      ∃ m, em = filterMsg m ∧ ∃ r ∈ rs, f r = .err m := by
  intro rs
  induction rs with
  | nil => intro em h; simp [applyFilterMap] at h
  | cons r rest ih =>
    intro em h
    unfold applyFilterMap at h
    cases hr : f r with
    | skip =>
      rw [hr] at h
      obtain ⟨m, hm, r2, hr2, hf2⟩ := ih em h
      exact ⟨m, hm, r2, List.mem_cons_of_mem _ hr2, hf2⟩
    | keep r2 =>
      rw [hr] at h
      cases hrec : applyFilterMap f rest with
      | ok l => rw [hrec] at h; simp [Except.map] at h
      | error e2 =>
        rw [hrec] at h
        have hee : e2 = em := by simpa [Except.map] using h
        obtain ⟨m, hm2, r3, hr3, hf3⟩ := ih e2 hrec
        exact ⟨m, hee ▸ hm2, r3, List.mem_cons_of_mem _ hr3, hf3⟩
    | err m =>
      rw [hr] at h
      have : em = filterMsg m := (Except.error.inj h).symm
      exact ⟨m, this, r, List.mem_cons_self r rest, hr⟩

/-- C7: on a cache miss, a navigation failure, a wait-selector failure or an
exception thrown by the user filter script each yield an HTTP 400 response
whose message describes the failure (for a script throw the message embeds
the script's own message), the cache is left unchanged; an exception escaping
to the handler (infrastructure failure) yields an HTTP 500 with a generic
message and also writes nothing. -/
theorem error_taxonomy (cache : Cache) (req : RequestBody) (pb : PageBehavior)
    (hmiss : cacheHas cache (cacheKey req) = false) :
    (∀ e, pb.navError = some e →
      handleResourcesRequest cache req (.ran (getResourcesList req pb)) =
        ((400, .message (navErrorMsg req.url e)), cache)) ∧
    (∀ sel e, pb.navError = none → req.waitSelector = some sel →
      pb.selectorError = some e →
      handleResourcesRequest cache req (.ran (getResourcesList req pb)) =
        ((400, .message (selErrorMsg sel req.url e)), cache)) ∧
    (∀ f em, pb.navError = none → req.waitSelector = none → pb.filterMap = some f →
      applyFilterMap f (combineResources pb.domResources pb.externals) = .error em →
      handleResourcesRequest cache req (.ran (getResourcesList req pb)) =
        ((400, .message em), cache) ∧
      ∃ m, em = jstr "Resources filter script has thrown an exception: " ++ m ++
        jstr "." ∧ ∃ r, f r = .err m) ∧
    (∀ err, handleResourcesRequest cache req (.threw err) =
      ((500, .message (serverErrorMsg req.url)), cache)) := by
  refine ⟨?_, ?_, ?_, ?_⟩
  · intro e he
    simp [handleResourcesRequest, hmiss, getResourcesList, he]
  · intro sel e hn hw hs
    simp [handleResourcesRequest, hmiss, getResourcesList, hn, hw, hs]
  · intro f em hn hw hf happ
    constructor
    · simp [handleResourcesRequest, hmiss, getResourcesList, hn, hw, evaluateStage,
        hf, happ]
    · obtain ⟨m, hm, r, _, hfr⟩ := applyFilterMap_error_form f _ em happ
      exact ⟨m, by simpa [filterMsg] using hm, r, hfr⟩
  · intro err
    simp [handleResourcesRequest, hmiss]

/-- C7 witness: a concrete navigation failure on an empty cache produces the
400 response with the navigation message and leaves the cache empty. -/
theorem error_taxonomy_witness :
    handleResourcesRequest [] reqPlain (.ran (getResourcesList reqPlain navFailBehavior)) =
      ((400, .message (navErrorMsg reqPlain.url (jstr "net::ERR_NAME_NOT_RESOLVED"))), []) :=
  (error_taxonomy [] reqPlain navFailBehavior (by decide)).1
    (jstr "net::ERR_NAME_NOT_RESOLVED") (by decide)

theorem foldl_acquire_launching :
    ∀ (cs : List Nat) (st : BrowserManager), st.launching = true →
      cs.foldl acquire st = { st with waiters := st.waiters ++ cs } := by
  intro cs
  induction cs with
  | nil => intro st h; simp
  | cons c rest ih =>
    intro st h
    have hstep : acquire st c = { st with waiters := st.waiters ++ [c] } := by
      simp [acquire, h]
    simp only [List.foldl_cons, hstep]
    rw [ih _ (by simp [h])]
    simp

/-- C8: starting from the absent state, any number of `acquire` calls while
no browser exists start exactly one launch and all join its waiter list; a
successful settlement hands every caller the handle of that same launch,
while a failed settlement hands every caller the error of that same launch
and resets the manager (no browser, no pending launch), so that the next
`acquire` starts a fresh second launch. -/
theorem singleflight_launch (c0 : Nat) (cs : List Nat) :
    ((c0 :: cs).foldl acquire initialManager).launches = 1 ∧
    ((c0 :: cs).foldl acquire initialManager).launching = true ∧
    ((c0 :: cs).foldl acquire initialManager).waiters = c0 :: cs ∧
    ((c0 :: cs).foldl acquire initialManager).results = [] ∧
    (completeLaunch ((c0 :: cs).foldl acquire initialManager) true).results =
      (c0 :: cs).map (fun c => (c, .ok 1)) ∧
    (completeLaunch ((c0 :: cs).foldl acquire initialManager) false).results =
      (c0 :: cs).map (fun c => (c, .error 1)) ∧
    (completeLaunch ((c0 :: cs).foldl acquire initialManager) false).browser = none ∧
    (completeLaunch ((c0 :: cs).foldl acquire initialManager) false).launching = false ∧
    (∀ c2, (acquire (completeLaunch ((c0 :: cs).foldl acquire initialManager) false) c2).launches = 2 ∧
      (acquire (completeLaunch ((c0 :: cs).foldl acquire initialManager) false) c2).launching = true) := by
  have h1 : acquire initialManager c0 = ⟨true, [c0], none, false, 1, []⟩ := by
    simp [acquire, initialManager]
  have h2 : (c0 :: cs).foldl acquire initialManager = ⟨true, c0 :: cs, none, false, 1, []⟩ := by
    simp only [List.foldl_cons, h1]
    rw [foldl_acquire_launching cs _ rfl]
    simp
  refine ⟨by simp [h2], by simp [h2], by simp [h2], by simp [h2], ?_, ?_, ?_, ?_, ?_⟩
  · simp [h2, completeLaunch]
  · simp [h2, completeLaunch]
  · simp [h2, completeLaunch]
  · simp [h2, completeLaunch]
  · intro c2
    constructor <;> simp [h2, completeLaunch, acquire]

/-- C8 witness: three concrete racing callers trigger one launch, and after a
failed settlement each of them received the error of attempt 1. -/
theorem singleflight_launch_witness :
    ([1, 2, 3].foldl acquire initialManager).launches = 1 ∧
    (completeLaunch ([1, 2, 3].foldl acquire initialManager) false).results =
      [(1, .error 1), (2, .error 1), (3, .error 1)] :=
  ⟨(singleflight_launch 1 [2, 3]).1,
   by rw [(singleflight_launch 1 [2, 3]).2.2.2.2.2.1]; rfl⟩
theorem bumpBucket_support (f : Nat → Nat) (r x : Nat) (h : bumpBucket f r x ≠ 0) :
    f x ≠ 0 ∨ x = r := by
  by_cases hx : x = r
  · exact Or.inr hx
  · left
    simpa [bumpBucket, hx] using h

theorem stepWindow_rep_support (st : TlshCore) (b x : Nat)
    (h : (stepWindow st b b b b b).buckets x ≠ 0) :
    st.buckets x ≠ 0 ∨ x ∈ repBuckets b := by
  simp only [stepWindow] at h
  rcases bumpBucket_support _ _ _ h with h | h
  swap
  · exact Or.inr (by simp [repBuckets, h])
  rcases bumpBucket_support _ _ _ h with h | h
  swap
  · exact Or.inr (by simp [repBuckets, h])
  rcases bumpBucket_support _ _ _ h with h | h
  swap
  · exact Or.inr (by simp [repBuckets, h])
  rcases bumpBucket_support _ _ _ h with h | h
  swap
  · exact Or.inr (by simp [repBuckets, h])
  rcases bumpBucket_support _ _ _ h with h | h
  swap
  · exact Or.inr (by simp [repBuckets, h])
  rcases bumpBucket_support _ _ _ h with h | h
  swap
  · exact Or.inr (by simp [repBuckets, h])
  exact Or.inl h

theorem updateCore_rep_support (b : Nat) :
    ∀ (l : List Nat) (st : TlshCore), (∀ y ∈ l, y = b) →
      ∀ x, (updateCore (b, b, b, b) l st).buckets x ≠ 0 →
        st.buckets x ≠ 0 ∨ x ∈ repBuckets b := by
  intro l
  induction l with
  | nil => intro st _ x h; exact Or.inl h
  | cons a rest ih =>
    intro st hall x h
    have ha : a = b := hall a (List.mem_cons_self a rest)
    subst ha
    simp only [updateCore] at h
    rcases ih _ (fun y hy => hall y (List.mem_cons_of_mem _ hy)) x h with h2 | h2
    · exact stepWindow_rep_support st a x h2
    · exact Or.inr h2

theorem tlshUpdate_replicate_support (b n x : Nat)
    (h : (tlshUpdate (List.replicate n b)).buckets x ≠ 0) : x ∈ repBuckets b := by
  match n with
  | 0 => simp [tlshUpdate, initCore, List.replicate] at h
  | 1 => simp [tlshUpdate, initCore, List.replicate] at h
  | 2 => simp [tlshUpdate, initCore, List.replicate] at h
  | 3 => simp [tlshUpdate, initCore, List.replicate] at h
  | m + 4 =>
    have hrep : List.replicate (m + 4) b = b :: b :: b :: b :: List.replicate m b := by
      simp [List.replicate_succ]
    rw [hrep] at h
    simp only [tlshUpdate] at h
    rcases updateCore_rep_support b (List.replicate m b) initCore
        (fun y hy => List.eq_of_mem_replicate hy) x h with h2 | h2
    · simp [initCore] at h2
    · exact h2

theorem nonzeroBuckets_le_of_support (bk : Nat → Nat) (S : List Nat)
    (h : ∀ x, bk x ≠ 0 → x ∈ S) : nonzeroBuckets bk ≤ S.length := by
  unfold nonzeroBuckets
  have hsub : ((List.range 128).filter (fun i => !(bk i == 0))) ⊆ S := by
    intro x hx
    have hp := List.of_mem_filter hx
    simp only [Bool.not_eq_true', beq_eq_false_iff_ne, ne_eq] at hp
    exact h x hp
  have hnd : ((List.range 128).filter (fun i => !(bk i == 0))).Nodup :=
    (List.nodup_range 128).filter _
  exact (hnd.subperm hsub).length_le

/-- C6: a repeated-byte input of length at least 50 makes `finale` raise the
not-enough-variation error (for any valid input of length at least 50,
`finale` raises exactly when at most 64 of the first 128 buckets are
non-zero), and the caller turns this failure into a silent fallback - the
raw content for length at most 256, the SHA-1 digest beyond - never a
surfaced error. -/
theorem uniform_input_fallback (b n : Nat) (hb : b ≤ 255) (hn : 50 ≤ n) :
    (∃ z, tlshFinale (List.replicate n b) = .error (.notEnoughVariation z) ∧ z ≤ 64) ∧
    (∀ data : List Nat, (∀ c ∈ data, c ≤ 255) → 50 ≤ data.length →
      ((∃ z, tlshFinale data = .error (.notEnoughVariation z)) ↔
        nonzeroBuckets (tlshUpdate data).buckets ≤ 64)) ∧
    (n ≤ 256 → createResourceContentData (List.replicate n b) = .raw (List.replicate n b)) ∧
    (256 < n → createResourceContentData (List.replicate n b) =
      .sha1 (sha1Hex (utf8Encode (List.replicate n b)))) := by
  have hnz : nonzeroBuckets (tlshUpdate (List.replicate n b)).buckets ≤ 64 := by
    refine le_trans (nonzeroBuckets_le_of_support _ (repBuckets b)
      (fun x hx => tlshUpdate_replicate_support b n x hx)) ?_
    simp [repBuckets]
  have hfind : (List.replicate n b).find? (fun c => Nat.blt 255 c) = none := by
    rw [List.find?_eq_none]
    intro x hx
    have hxb := List.eq_of_mem_replicate hx
    simp [hxb, Nat.blt_eq]
    omega
  have hlen : ¬ (List.replicate n b).length < 50 := by
    simp [List.length_replicate]
    omega
  have herr : tlshFinale (List.replicate n b) =
      .error (.notEnoughVariation (nonzeroBuckets (tlshUpdate (List.replicate n b)).buckets)) := by
    unfold tlshFinale
    rw [hfind, if_neg hlen]
    simp only []
    rw [if_pos hnz]
  have herr2 := tlsHash_error_of_finale _ _ herr
  refine ⟨⟨_, herr, hnz⟩, ?_, ?_, ?_⟩
  · intro data hchars hlen50
    have hfind2 : data.find? (fun c => Nat.blt 255 c) = none := by
      rw [List.find?_eq_none]
      intro x hx
      have := hchars x hx
      simp [Nat.blt_eq]
      omega
    constructor
    · rintro ⟨z, hz⟩
      by_contra hgt
      rw [Nat.not_le] at hgt
      unfold tlshFinale at hz
      rw [hfind2, if_neg (by omega)] at hz
      simp only [] at hz
      rw [if_neg (by omega)] at hz
      exact absurd hz (by simp)
    · intro hle
      refine ⟨nonzeroBuckets (tlshUpdate data).buckets, ?_⟩
      unfold tlshFinale
      rw [hfind2, if_neg (by omega)]
      simp only []
      rw [if_pos hle]
  · intro hsmall
    have h2 : ¬ 256 < n := by omega
    simp [createResourceContentData, herr2, List.length_replicate, h2]
  · intro hbig
    simp [createResourceContentData, herr2, List.length_replicate, hbig]

/-- C6 witness: fifty repeated `'a'` bytes raise the variation error and fall
back to the raw content. -/
theorem uniform_input_fallback_witness :
    (∃ z, tlshFinale (List.replicate 50 97) = .error (.notEnoughVariation z) ∧ z ≤ 64) ∧
    createResourceContentData (List.replicate 50 97) = .raw (List.replicate 50 97) :=
  ⟨(uniform_input_fallback 97 50 (by decide) (by decide)).1,
   (uniform_input_fallback 97 50 (by decide) (by decide)).2.2.1 (by decide)⟩

/-- C5: a page exposing two identical script elements referencing the same
external URL yields two separate output entries with identical fingerprints:
the URL merge concatenates the captured body into each element but does not
deduplicate output entries. -/
theorem duplicate_elements_preserved (u c1 c2 : JSString) (ty : ResType)
    (hdb : startsDataOrBlob u = false) (hnz : u ≠ []) (hc : c1 ++ c2 ≠ []) :
    combineResources [⟨some u, c1, ty⟩, ⟨some u, c1, ty⟩] [⟨u, c2, ty, false⟩] =
      [⟨some u, c1 ++ c2, ty⟩, ⟨some u, c1 ++ c2, ty⟩] ∧
    assembleEntry ⟨some u, c1 ++ c2, ty⟩ =
      some (ty, ⟨some u, some ⟨createResourceContentData (c1 ++ c2), (c1 ++ c2).length⟩⟩) := by
  constructor
  · simp [combineResources, buildResourcesMap, combineStep, combineStepCore,
      mapGet, mapSet, leftoverResources, mapValues, List.find?]
  · have hb : ((c1 ++ c2) == ([] : List Nat)) = false := beq_eq_false_iff_ne.mpr hc
    have htu : truthy (some u) = true := by simpa [truthy] using hnz
    simp [assembleEntry, hb, htu, hdb]

/-- C5 witness: the duplicate-element behaviour on a concrete CDN script. -/
theorem duplicate_elements_preserved_witness :
    combineResources [inPageScript, inPageScript] [extScript] =
      [⟨some extUrl, jstr "console.log(1)" ++ jstr "console.log(2)", .script⟩,
       ⟨some extUrl, jstr "console.log(1)" ++ jstr "console.log(2)", .script⟩] :=
  (duplicate_elements_preserved extUrl (jstr "console.log(1)") (jstr "console.log(2)")
    .script (by decide) (by decide) (by decide)).1
theorem mapGet_cons (p : JSString × ExternalResource) (rest : ResMap) (k : JSString) :
    mapGet (p :: rest) k = if p.1 = k then some p.2 else mapGet rest k := by
  by_cases h : p.1 = k
  · simp [mapGet, List.find?, h]
  · have hb : (p.1 == k) = false := beq_eq_false_iff_ne.mpr h
    simp [mapGet, List.find?, hb, h]

theorem mapGet_mapSet_self (m : ResMap) (k : JSString) (v : ExternalResource) :
    mapGet (mapSet m k v) k = some v := by
  induction m with
  | nil => simp [mapSet, mapGet, List.find?]
  | cons p rest ih =>
    by_cases h : p.1 = k
    · simp [mapSet, h, mapGet_cons]
    · simp [mapSet, h, mapGet_cons, ih]

theorem mapGet_mapSet_ne (m : ResMap) (k k2 : JSString) (v : ExternalResource)
    (h : k2 ≠ k) : mapGet (mapSet m k v) k2 = mapGet m k2 := by
  induction m with
  | nil =>
    have hb : (k == k2) = false := beq_eq_false_iff_ne.mpr (fun hh => h hh.symm)
    simp [mapSet, mapGet, List.find?, hb]
  | cons p rest ih =>
    by_cases hp : p.1 = k
    · rw [mapSet, if_pos hp, mapGet_cons, mapGet_cons, if_neg (fun hh => h hh.symm),
        if_neg (fun hh => h (hp ▸ hh).symm)]
    · rw [mapSet, if_neg hp, mapGet_cons, mapGet_cons, ih]

theorem mapGet_key (u : JSString) (v : ExternalResource) :
    ∀ (m : ResMap), (∀ p ∈ m, p.2.url = p.1) → mapGet m u = some v → v.url = u := by
  intro m
  induction m with
  | nil => intro _ h; simp [mapGet, List.find?] at h
  | cons p rest ih =>
    intro hkc h
    rw [mapGet_cons] at h
    by_cases hp : p.1 = u
    · rw [if_pos hp] at h
      have hpv : p.2 = v := Option.some.inj h
      rw [← hpv, hkc p (List.mem_cons_self p rest), hp]
    · rw [if_neg hp] at h
      exact ih (fun q hq => hkc q (List.mem_cons_of_mem _ hq)) h

theorem mapSet_keys (m : ResMap) (k : JSString) (v : ExternalResource) :
    ∀ x ∈ (mapSet m k v).map (fun p => p.1), x ∈ m.map (fun p => p.1) ∨ x = k := by
  induction m with
  | nil =>
    intro x hx
    simp [mapSet] at hx
    exact Or.inr hx
  | cons p rest ih =>
    intro x hx
    by_cases hp : p.1 = k
    · rw [mapSet, if_pos hp] at hx
      simp only [List.map_cons, List.mem_cons] at hx
      rcases hx with hx | hx
      · exact Or.inr hx
      · exact Or.inl (by simp only [List.map_cons, List.mem_cons]; exact Or.inr hx)
    · rw [mapSet, if_neg hp] at hx
      simp only [List.map_cons, List.mem_cons] at hx
      rcases hx with hx | hx
      · exact Or.inl (by simp only [List.map_cons, List.mem_cons]; exact Or.inl hx)
      · rcases ih x hx with h2 | h2
        · exact Or.inl (by simp only [List.map_cons, List.mem_cons]; exact Or.inr h2)
        · exact Or.inr h2

theorem goodMap_mapSet : ∀ (m : ResMap) (k : JSString) (v : ExternalResource),
    goodMap m → v.url = k → goodMap (mapSet m k v) := by
  intro m
  induction m with
  | nil =>
    intro k v _ hv
    exact ⟨by simp [mapSet, hv], by simp [mapSet]⟩
  | cons p rest ih =>
    intro k v hg hv
    obtain ⟨hkc, hnd⟩ := hg
    rw [List.map_cons] at hnd
    have hndc := List.nodup_cons.mp hnd
    have hkcr : ∀ q ∈ rest, q.2.url = q.1 := fun q hq => hkc q (List.mem_cons_of_mem _ hq)
    by_cases hp : p.1 = k
    · refine ⟨?_, ?_⟩
      · intro q hq
        rw [mapSet, if_pos hp] at hq
        rcases List.mem_cons.mp hq with rfl | hq2
        · exact hv
        · exact hkcr q hq2
      · rw [mapSet, if_pos hp]
        simp only [List.map_cons]
        exact List.nodup_cons.mpr ⟨hp ▸ hndc.1, hndc.2⟩
    · refine ⟨?_, ?_⟩
      · intro q hq
        rw [mapSet, if_neg hp] at hq
        rcases List.mem_cons.mp hq with rfl | hq2
        · exact hkc q (List.mem_cons_self q rest)
        · exact (ih k v ⟨hkcr, hndc.2⟩ hv).1 q hq2
      · rw [mapSet, if_neg hp]
        simp only [List.map_cons]
        refine List.nodup_cons.mpr ⟨?_, (ih k v ⟨hkcr, hndc.2⟩ hv).2⟩
        intro hmem
        rcases mapSet_keys rest k v p.1 hmem with h2 | h2
        · exact hndc.1 h2
        · exact hp h2

theorem goodMap_build_aux : ∀ (externals : List ExternalResource) (m : ResMap),
    goodMap m → goodMap (externals.foldl (fun m e => mapSet m e.url e) m) := by
  intro ext
  induction ext with
  | nil => intro m h; exact h
  | cons e rest ih =>
    intro m h
    exact ih _ (goodMap_mapSet m e.url e h rfl)

theorem goodMap_build (externals : List ExternalResource) :
    goodMap (buildResourcesMap externals) :=
  goodMap_build_aux externals [] ⟨by simp, by simp⟩

theorem mapGet_build_filter_nil (u : JSString) :
    ∀ (externals : List ExternalResource) (m : ResMap),
      externals.filter (fun e => e.url == u) = [] →
      mapGet (externals.foldl (fun m e => mapSet m e.url e) m) u = mapGet m u := by
  intro ext
  induction ext with
  | nil => intro m _; rfl
  | cons e rest ih =>
    intro m hf
    rw [List.filter_cons] at hf
    by_cases he : (e.url == u) = true
    · rw [if_pos (by simp [he])] at hf
      exact absurd hf (by simp)
    · rw [if_neg (by simp [he])] at hf
      simp only [List.foldl_cons]
      rw [ih _ hf]
      have hne : u ≠ e.url := by
        intro hh
        subst hh
        simp at he
      exact mapGet_mapSet_ne m e.url u e hne

theorem mapGet_build_single (u : JSString) (ev : ExternalResource) :
    ∀ (externals : List ExternalResource) (m : ResMap),
      externals.filter (fun e => e.url == u) = [ev] →
      mapGet (externals.foldl (fun m e => mapSet m e.url e) m) u = some ev := by
  intro ext
  induction ext with
  | nil => intro m hf; simp at hf
  | cons e rest ih =>
    intro m hf
    rw [List.filter_cons] at hf
    by_cases he : (e.url == u) = true
    · rw [if_pos (by simp [he])] at hf
      have hev : e = ev := (List.cons.inj hf).1
      have hrest : rest.filter (fun e => e.url == u) = [] := (List.cons.inj hf).2
      simp only [List.foldl_cons]
      rw [mapGet_build_filter_nil u rest _ hrest]
      have heu : e.url = u := by simpa using he
      rw [← heu, ← hev]
      exact mapGet_mapSet_self m e.url e
    · rw [if_neg (by simp [he])] at hf
      simp only [List.foldl_cons]
      exact ih _ hf

theorem leftover_cons (p : JSString × ExternalResource) (rest : ResMap) :
    leftoverResources (p :: rest) =
      (if p.2.processed then [] else [⟨some p.2.url, p.2.data, p.2.type⟩]) ++
        leftoverResources rest := by
  by_cases h : p.2.processed <;> simp [leftoverResources, mapValues, h]

theorem leftover_filter_nil_of_keys (u : JSString) :
    ∀ m : ResMap, (∀ p ∈ m, p.2.url = p.1) → (∀ p ∈ m, p.1 ≠ u) →
      (leftoverResources m).filter (fun r => r.url == some u) = [] := by
  intro m
  induction m with
  | nil => intro _ _; rfl
  | cons p rest ih =>
    intro hkc hnu
    rw [leftover_cons, List.filter_append,
      ih (fun q hq => hkc q (List.mem_cons_of_mem _ hq))
        (fun q hq => hnu q (List.mem_cons_of_mem _ hq))]
    have hne : p.2.url ≠ u := by
      rw [hkc p (List.mem_cons_self p rest)]
      exact hnu p (List.mem_cons_self p rest)
    by_cases h : p.2.processed
    · simp [h]
    · simp [h, hne]

theorem leftover_none_at_u (u : JSString) (e : ExternalResource) :
    ∀ m : ResMap, goodMap m → mapGet m u = some e → e.processed = true →
      (leftoverResources m).filter (fun r => r.url == some u) = [] := by
  intro m
  induction m with
  | nil => intro _ _ _; rfl
  | cons p rest ih =>
    intro hg hget hp
    obtain ⟨hkc, hnd⟩ := hg
    rw [List.map_cons] at hnd
    have hndc := List.nodup_cons.mp hnd
    have hkcr : ∀ q ∈ rest, q.2.url = q.1 := fun q hq => hkc q (List.mem_cons_of_mem _ hq)
    rw [mapGet_cons] at hget
    rw [leftover_cons, List.filter_append]
    by_cases hpu : p.1 = u
    · rw [if_pos hpu] at hget
      have hpe : p.2 = e := Option.some.inj hget
      have h1 : (if p.2.processed then ([] : List RawResource)
          else [⟨some p.2.url, p.2.data, p.2.type⟩]) = [] := by
        simp [hpe, hp]
      rw [h1]
      have hrestk : ∀ q ∈ rest, q.1 ≠ u := by
        intro q hq hqu
        apply hndc.1
        rw [hpu, ← hqu]
        exact List.mem_map_of_mem (fun p => p.1) hq
      rw [leftover_filter_nil_of_keys u rest hkcr hrestk]
      simp
    · rw [if_neg hpu] at hget
      rw [ih ⟨hkcr, hndc.2⟩ hget hp]
      have hne : p.2.url ≠ u := by
        rw [hkc p (List.mem_cons_self p rest)]
        exact hpu
      by_cases h : p.2.processed
      · simp [h]
      · simp [h, hne]
theorem startsDataOrBlob_of_prefix (w t : JSString) (hw : startsDataOrBlob w = true)
    (hp : w <+: t) : startsDataOrBlob t = true := by
  unfold startsDataOrBlob at hw ⊢
  rcases (by simpa using hw :
      (jstr "data:").isPrefixOf w = true ∨ (jstr "blob:").isPrefixOf w = true) with h | h
  · have := List.isPrefixOf_iff_prefix.mpr ((List.isPrefixOf_iff_prefix.mp h).trans hp)
    simp [this]
  · have := List.isPrefixOf_iff_prefix.mpr ((List.isPrefixOf_iff_prefix.mp h).trans hp)
    simp [this]

theorem datablob_append_ne (u w x : JSString) (hdb : startsDataOrBlob u = false)
    (hsw : startsDataOrBlob w = true) :
    ((some (w ++ jstr "[" ++ x ++ jstr "]") : Option JSString) == some u) = false := by
  apply beq_eq_false_iff_ne.mpr
  intro hh
  have hwu := Option.some.inj hh
  have hpre : w <+: w ++ jstr "[" ++ x ++ jstr "]" :=
    ((List.prefix_append w (jstr "[")).trans
      (List.prefix_append (w ++ jstr "[") x)).trans
      (List.prefix_append (w ++ jstr "[" ++ x) (jstr "]"))
  have hbig := startsDataOrBlob_of_prefix w _ hsw hpre
  rw [hwu] at hbig
  rw [hbig] at hdb
  exact absurd hdb (by simp)

theorem assembleEntry_none_data (d : JSString) (ty : ResType) (hd : d ≠ []) :
    assembleEntry ⟨none, d, ty⟩ =
      some (ty, ⟨none, some ⟨createResourceContentData d, d.length⟩⟩) := by
  have hb : (d == ([] : List Nat)) = false := beq_eq_false_iff_ne.mpr hd
  simp [assembleEntry, hb, truthy]

theorem assembleEntry_none_empty (ty : ResType) : assembleEntry ⟨none, [], ty⟩ = none := by
  simp [assembleEntry, truthy]

theorem assembleEntry_some_nil_data (d : JSString) (ty : ResType) (hd : d ≠ []) :
    assembleEntry ⟨some [], d, ty⟩ =
      some (ty, ⟨none, some ⟨createResourceContentData d, d.length⟩⟩) := by
  have hb : (d == ([] : List Nat)) = false := beq_eq_false_iff_ne.mpr hd
  simp [assembleEntry, hb, truthy]

theorem assembleEntry_some_nil_empty (ty : ResType) :
    assembleEntry ⟨some [], [], ty⟩ = none := by
  simp [assembleEntry, truthy]

theorem assembleEntry_at_u (u d : JSString) (ty : ResType) (hnz : u ≠ [])
    (hdb : startsDataOrBlob u = false) (hd : d ≠ []) :
    assembleEntry ⟨some u, d, ty⟩ =
      some (ty, ⟨some u, some ⟨createResourceContentData d, d.length⟩⟩) := by
  have hb : (d == ([] : List Nat)) = false := beq_eq_false_iff_ne.mpr hd
  have htu : truthy (some u) = true := by simpa [truthy] using hnz
  simp [assembleEntry, hb, htu, hdb]

theorem assembleEntry_plain_empty (w : JSString) (ty : ResType) (hw : w ≠ [])
    (hsw : startsDataOrBlob w = false) :
    assembleEntry ⟨some w, [], ty⟩ = some (ty, ⟨some w, none⟩) := by
  have htu : truthy (some w) = true := by simpa [truthy] using hw
  simp [assembleEntry, htu, hsw]

theorem assembleEntry_at_datablob (w d : JSString) (ty : ResType) (hw : w ≠ [])
    (hsw : startsDataOrBlob w = true) (hd : d ≠ []) :
    assembleEntry ⟨some w, d, ty⟩ = some (ty,
      ⟨some (w ++ jstr "[" ++ contentValue (createResourceContentData d) ++ jstr "]"),
       some ⟨createResourceContentData d, d.length⟩⟩) := by
  have hb : (d == ([] : List Nat)) = false := beq_eq_false_iff_ne.mpr hd
  have key : ∀ t : JSString, (w ++ t = []) ↔ False :=
    fun t => ⟨fun hc => hw (List.append_eq_nil.mp hc).1, False.elim⟩
  simp [assembleEntry, hb, hsw, truthy, key, hw]

theorem assembleEntry_at_datablob_empty (w : JSString) (ty : ResType) (hw : w ≠ [])
    (hsw : startsDataOrBlob w = true) :
    assembleEntry ⟨some w, [], ty⟩ =
      some (ty, ⟨some (w ++ jstr "[" ++ ([] : JSString) ++ jstr "]"), none⟩) := by
  have key : ∀ t : JSString, (w ++ t = []) ↔ False :=
    fun t => ⟨fun hc => hw (List.append_eq_nil.mp hc).1, False.elim⟩
  simp [assembleEntry, hsw, truthy, key, hw]

theorem assembleEntry_not_at_u (u : JSString) (hdb : startsDataOrBlob u = false)
    (r : RawResource) (hru : (r.url == some u) = false) :
    ∀ ty e, assembleEntry r = some (ty, e) → (e.url == some u) = false := by
  intro ty e h
  obtain ⟨ru, rd, rt⟩ := r
  cases ru with
  | none =>
    by_cases hd : rd = []
    · subst hd
      rw [assembleEntry_none_empty] at h
      exact absurd h (by simp)
    · rw [assembleEntry_none_data rd rt hd] at h
      obtain ⟨-, h2⟩ := Prod.mk.inj (Option.some.inj h)
      rw [← h2]
      rfl
  | some w =>
    by_cases hw : w = []
    · subst hw
      by_cases hd : rd = []
      · subst hd
        rw [assembleEntry_some_nil_empty] at h
        exact absurd h (by simp)
      · rw [assembleEntry_some_nil_data rd rt hd] at h
        obtain ⟨-, h2⟩ := Prod.mk.inj (Option.some.inj h)
        rw [← h2]
        rfl
    · have hwu : w ≠ u := by
        intro hh
        rw [hh] at hru
        simp at hru
      by_cases hsw : startsDataOrBlob w = true
      · by_cases hd : rd = []
        · subst hd
          rw [assembleEntry_at_datablob_empty w rt hw hsw] at h
          obtain ⟨-, h2⟩ := Prod.mk.inj (Option.some.inj h)
          rw [← h2]
          exact datablob_append_ne u w [] hdb hsw
        · rw [assembleEntry_at_datablob w rd rt hw hsw hd] at h
          obtain ⟨-, h2⟩ := Prod.mk.inj (Option.some.inj h)
          rw [← h2]
          exact datablob_append_ne u w _ hdb hsw
      · have hsw2 : startsDataOrBlob w = false := by
          cases hb : startsDataOrBlob w
          · rfl
          · exact absurd hb hsw
        by_cases hd : rd = []
        · subst hd
          rw [assembleEntry_plain_empty w rt hw hsw2] at h
          obtain ⟨-, h2⟩ := Prod.mk.inj (Option.some.inj h)
          rw [← h2]
          simpa using hwu
        · rw [assembleEntry_at_u w rd rt hw hsw2 hd] at h
          obtain ⟨-, h2⟩ := Prod.mk.inj (Option.some.inj h)
          rw [← h2]
          simpa using hwu

theorem entries_filter_single (u c : JSString) (ty : ResType) (hnz : u ≠ [])
    (hdb : startsDataOrBlob u = false) (hc : c ≠ []) :
    ∀ rs : List RawResource, rs.filter (fun r => r.url == some u) = [⟨some u, c, ty⟩] →
      ((rs.filterMap assembleEntry).filter (fun p => p.2.url == some u)) =
        [(ty, ⟨some u, some ⟨createResourceContentData c, c.length⟩⟩)] := by
  intro rs
  induction rs with
  | nil => intro h; simp at h
  | cons r rest ih =>
    intro h
    rw [List.filter_cons] at h
    rw [List.filterMap_cons]
    by_cases hru : (r.url == some u) = true
    · rw [if_pos hru] at h
      have hr : r = ⟨some u, c, ty⟩ := (List.cons.inj h).1
      have hrest : rest.filter (fun r => r.url == some u) = [] := (List.cons.inj h).2
      subst hr
      rw [assembleEntry_at_u u c ty hnz hdb hc]
      simp only []
      rw [List.filter_cons, if_pos (by simp)]
      have hnilrest : (rest.filterMap assembleEntry).filter
          (fun p => p.2.url == some u) = [] := by
        rw [List.filter_eq_nil_iff]
        intro p hp
        obtain ⟨r2, hr2, hfr2⟩ := List.mem_filterMap.mp hp
        have hr2u : (r2.url == some u) = false := by
          have := List.filter_eq_nil_iff.mp hrest r2 hr2
          simpa using this
        have hq := assembleEntry_not_at_u u hdb r2 hr2u p.1 p.2 (by rw [hfr2])
        simp [hq]
      rw [hnilrest]
    · have hru2 : (r.url == some u) = false := by simpa using hru
      rw [if_neg hru] at h
      cases hae : assembleEntry r with
      | none => exact ih h
      | some p =>
        rw [List.filter_cons]
        have hpu := assembleEntry_not_at_u u hdb r hru2 p.1 p.2 (by rw [hae])
        rw [if_neg (by simp [hpu])]
        exact ih h

theorem combineStep_pair (m : ResMap) (acc : List RawResource) (r : RawResource) :
    combineStep (m, acc) r = combineStepCore m acc r := rfl

theorem combineStep_preserves (m : ResMap) (acc : List RawResource) (r : RawResource)
    (u : JSString) (e : ExternalResource) (hg : goodMap m) (hget : mapGet m u = some e)
    (hru : (r.url == some u) = false) :
    goodMap (combineStepCore m acc r).1 ∧
    mapGet (combineStepCore m acc r).1 u = some e ∧
    (combineStepCore m acc r).2.filter (fun x => x.url == some u) =
      acc.filter (fun x => x.url == some u) := by
  unfold combineStepCore
  cases hurl : r.url with
  | none =>
    refine ⟨hg, hget, ?_⟩
    rw [List.filter_append]
    have hsing : ([r].filter (fun x => x.url == some u)) = [] := by
      simp only [List.filter_cons, hru, List.filter_nil]
      rfl
    rw [hsing, List.append_nil]
  | some w =>
    have hwu : w ≠ u := by
      intro hh
      rw [hurl, hh] at hru
      simp at hru
    cases hext : mapGet m w with
    | none =>
      dsimp only []
      rw [hext]
      refine ⟨hg, hget, ?_⟩
      rw [List.filter_append]
      have hsing : ([r].filter (fun x => x.url == some u)) = [] := by
        simp only [List.filter_cons, hru, List.filter_nil]
        rfl
      rw [hsing, List.append_nil]
    | some ext =>
      dsimp only []
      rw [hext]
      have hextu : ext.url = w := mapGet_key w ext m hg.1 hext
      have hru2 : ((some w : Option JSString) == some u) = false := by
        rw [hurl] at hru
        exact hru
      have hsing : ([(⟨some w, r.data ++ ext.data, r.type⟩ : RawResource)].filter
          (fun x => x.url == some u)) = [] := by
        simp only [List.filter_cons, hru2, List.filter_nil]
        rfl
      by_cases hp : ext.processed
      · simp only [hp, if_true]
        exact ⟨hg, hget, by rw [List.filter_append, hsing, List.append_nil]⟩
      · simp only [hp, if_false, Bool.false_eq_true]
        refine ⟨?_, ?_, ?_⟩
        · exact goodMap_mapSet m w { ext with processed := true } hg (by simp [hextu])
        · rw [mapGet_mapSet_ne m w u { ext with processed := true } (Ne.symm hwu)]
          exact hget
        · rw [List.filter_append, hsing, List.append_nil]

theorem combineFold_after (u : JSString) (e : ExternalResource) :
    ∀ (rs : List RawResource) (m : ResMap) (acc : List RawResource),
      goodMap m → mapGet m u = some e →
      rs.filter (fun r => r.url == some u) = [] →
      goodMap (rs.foldl combineStep (m, acc)).1 ∧
      mapGet (rs.foldl combineStep (m, acc)).1 u = some e ∧
      (rs.foldl combineStep (m, acc)).2.filter (fun r => r.url == some u) =
        acc.filter (fun r => r.url == some u) := by
  intro rs
  induction rs with
  | nil => intro m acc hg hget _; exact ⟨hg, hget, rfl⟩
  | cons r rest ih =>
    intro m acc hg hget hf
    rw [List.filter_cons] at hf
    by_cases hru : (r.url == some u) = true
    · rw [if_pos hru] at hf
      exact absurd hf (by simp)
    · have hru2 : (r.url == some u) = false := by simpa using hru
      rw [if_neg hru] at hf
      simp only [List.foldl_cons, combineStep_pair]
      obtain ⟨h1, h2, h3⟩ := combineStep_preserves m acc r u e hg hget hru2
      rcases hcs : combineStepCore m acc r with ⟨m2, acc2⟩
      rw [hcs] at h1 h2 h3
      obtain ⟨g1, g2, g3⟩ := ih m2 acc2 h1 h2 hf
      exact ⟨g1, g2, by rw [g3, h3]⟩

theorem combineFold_single (u c1 c2 : JSString) (ty : ResType) (e : ExternalResource)
    (hd : e.data = c2) (hp0 : e.processed = false) :
    ∀ (rs : List RawResource) (m : ResMap) (acc : List RawResource),
      goodMap m → mapGet m u = some e →
      rs.filter (fun r => r.url == some u) = [⟨some u, c1, ty⟩] →
      acc.filter (fun r => r.url == some u) = [] →
      goodMap (rs.foldl combineStep (m, acc)).1 ∧
      mapGet (rs.foldl combineStep (m, acc)).1 u = some { e with processed := true } ∧
      (rs.foldl combineStep (m, acc)).2.filter (fun r => r.url == some u) =
        [⟨some u, c1 ++ c2, ty⟩] := by
  intro rs
  induction rs with
  | nil => intro m acc _ _ hf _; simp at hf
  | cons r rest ih =>
    intro m acc hg hget hf hacc
    rw [List.filter_cons] at hf
    by_cases hru : (r.url == some u) = true
    · rw [if_pos hru] at hf
      have hr : r = ⟨some u, c1, ty⟩ := (List.cons.inj hf).1
      have hrest : rest.filter (fun r => r.url == some u) = [] := (List.cons.inj hf).2
      subst hr
      simp only [List.foldl_cons, combineStep_pair]
      have hstep : combineStepCore m acc ⟨some u, c1, ty⟩ =
          (mapSet m u { e with processed := true },
           acc ++ [⟨some u, c1 ++ c2, ty⟩]) := by
        unfold combineStepCore
        dsimp only []
        rw [hget]
        simp [hp0, hd]
      rw [hstep]
      have heu : e.url = u := mapGet_key u e m hg.1 hget
      have hg2 := goodMap_mapSet m u { e with processed := true } hg (by simp [heu])
      have hget2 : mapGet (mapSet m u { e with processed := true }) u =
          some { e with processed := true } := mapGet_mapSet_self m u _
      have hacc2 : (acc ++ [(⟨some u, c1 ++ c2, ty⟩ : RawResource)]).filter
          (fun r => r.url == some u) = [(⟨some u, c1 ++ c2, ty⟩ : RawResource)] := by
        rw [List.filter_append, hacc]
        simp
      obtain ⟨g1, g2, g3⟩ := combineFold_after u { e with processed := true } rest
        (mapSet m u { e with processed := true }) (acc ++ [⟨some u, c1 ++ c2, ty⟩])
        hg2 hget2 hrest
      exact ⟨g1, g2, by rw [g3, hacc2]⟩
    · have hru2 : (r.url == some u) = false := by simpa using hru
      rw [if_neg hru] at hf
      simp only [List.foldl_cons, combineStep_pair]
      obtain ⟨h1, h2, h3⟩ := combineStep_preserves m acc r u e hg hget hru2
      rcases hcs : combineStepCore m acc r with ⟨m2, acc2⟩
      rw [hcs] at h1 h2 h3
      exact ih m2 acc2 h1 h2 hf (by rw [h3, hacc])

/-- C2: a resource discovered at URL `u` both by in-page inspection (inline
content `c1`) and by network observation (body `c2`) yields exactly one
merged resource at `u`, whose content is the concatenation `c1 ++ c2`
concatenated exactly once; the captured copy is marked consumed so no
leftover entry at `u` is emitted, and the assembled output carries exactly
one entry at `u`, fingerprinting `c1 ++ c2`. -/
theorem url_merge_dedup (resources : List RawResource)
    (externals : List ExternalResource) (u c1 c2 : JSString) (ty ty2 : ResType)
    (hres : resources.filter (fun r => r.url == some u) = [⟨some u, c1, ty⟩])
    (hext : externals.filter (fun e => e.url == u) = [⟨u, c2, ty2, false⟩])
    (hnz : u ≠ []) (hdb : startsDataOrBlob u = false) (hc : c1 ++ c2 ≠ []) :
    (combineResources resources externals).filter (fun r => r.url == some u) =
      [⟨some u, c1 ++ c2, ty⟩] ∧
    ((combineResources resources externals).filterMap assembleEntry).filter
        (fun p => p.2.url == some u) =
      [(ty, ⟨some u, some ⟨createResourceContentData (c1 ++ c2),
        (c1 ++ c2).length⟩⟩)] := by
  have hbuild : mapGet (buildResourcesMap externals) u = some ⟨u, c2, ty2, false⟩ := by
    unfold buildResourcesMap
    exact mapGet_build_single u ⟨u, c2, ty2, false⟩ externals [] hext
  have hgood := goodMap_build externals
  obtain ⟨g1, g2, g3⟩ := combineFold_single u c1 c2 ty ⟨u, c2, ty2, false⟩ rfl rfl
    resources (buildResourcesMap externals) [] hgood hbuild hres rfl
  have h1 : (combineResources resources externals).filter
      (fun r => r.url == some u) = [⟨some u, c1 ++ c2, ty⟩] := by
    unfold combineResources
    dsimp only []
    rw [List.filter_append, g3,
      leftover_none_at_u u ⟨u, c2, ty2, true⟩ _ g1 g2 rfl, List.append_nil]
  exact ⟨h1, entries_filter_single u (c1 ++ c2) ty hnz hdb hc _ h1⟩

/-- C2 witness: a concrete in-page script plus its network capture merge
into a single fingerprinted entry. -/
theorem url_merge_dedup_witness :
    (combineResources [inPageScript] [extScript]).filter
        (fun r => r.url == some extUrl) =
      [⟨some extUrl, jstr "console.log(1)" ++ jstr "console.log(2)", .script⟩] ∧
    ((combineResources [inPageScript] [extScript]).filterMap assembleEntry).filter
        (fun p => p.2.url == some extUrl) =
      [(.script, ⟨some extUrl, some ⟨createResourceContentData
        (jstr "console.log(1)" ++ jstr "console.log(2)"),
        (jstr "console.log(1)" ++ jstr "console.log(2)").length⟩⟩)] :=
  url_merge_dedup [inPageScript] [extScript] extUrl (jstr "console.log(1)")
    (jstr "console.log(2)") .script .script (by decide) (by decide) (by decide)
    (by decide) (by decide)
